import Mathlib

/-!
# Package `api`: the dependency anchor `src/api/deps.go`

The repository's only source file is a Go file that carries no code of its own: a comment,
two build-constraint lines, a package clause and one blank import.  Its behaviour is what the Go
toolchain makes of that text, so the development embeds

* the file itself, line for line (`depsGo`);
* the rules by which Go reads a file header and its build constraints
  (`parseFileHeader`, `parseExpr`, `parsePlusBuildExpr`, `shouldBuild`), after the standard
  packages `go/build` and `go/build/constraint`;
* the lexical and top-level grammar of a Go source file, for the part of the language that
  the file uses (`scan`, `parseFile`).

Strings of the file are handled as lists of characters, and every function is structurally
recursive, so that all of them evaluate on the text of `deps.go`.
-/

namespace Api

/-! ## The source file -/

/-- The text of `src/api/deps.go`, one entry per line (the file has 14 lines and does not end
in a newline). -/
def depsGo : List String :=
  [ "// This file exists to ensure that go.mod dependencies are properly resolved by Gazelle.",
    "// The blank imports below force the specific versions declared in go.mod to be used.",
    "//",
    "// This is particularly important for google.golang.org/protobuf v1.36.10 which is required",
    "// by the protovalidate generated code that uses MessageFieldStringOf.",
    "",
    "//go:build tools",
    "// +build tools",
    "",
    "package api",
    "",
    "import (",
    "\t_ \"google.golang.org/protobuf/runtime/protoimpl\"",
    ")" ]

/-- Name of the file inside the repository. -/
def depsGoName : String := "deps.go"

/-! ## Byte-string helpers (Go packages `bytes` and `strings`, ASCII range) -/

/-- White space as `bytes.TrimSpace` sees it in ASCII text. -/
def isSpace (c : Char) : Bool :=
  c == ' ' || c == '\t' || c == '\n' || c == '\r' || c == '\x0b' || c == '\x0c'

/-- Drop leading white space. -/
def trimLeft : List Char → List Char
  | [] => []
  | c :: cs => if isSpace c then trimLeft cs else c :: cs

/-- Go `bytes.TrimSpace`: drop leading and trailing white space. -/
def trimSpace (s : List Char) : List Char :=
  (trimLeft (trimLeft s).reverse).reverse

/-- Go `bytes.HasPrefix`. -/
def hasPrefix (s p : List Char) : Bool := p.isPrefixOf s

/-- Go `bytes.Index` specialised to cutting: the text after the first occurrence of `sep`,
or `none` when `sep` does not occur. -/
def cutAfter (sep : List Char) : List Char → Option (List Char)
  | [] => if sep.isEmpty then some [] else none
  | c :: cs => if sep.isPrefixOf (c :: cs) then some ((c :: cs).drop sep.length) else cutAfter sep cs

/-- Go `bytes.Contains`. -/
def containsSub (s sub : List Char) : Bool := (cutAfter sub s).isSome

/-- Worker of `splitOn`: `cur` is the current field, reversed. -/
def splitOnAux (sep : Char) : List Char → List Char → List (List Char)
  | [], cur => [cur.reverse]
  | c :: cs, cur => if c == sep then cur.reverse :: splitOnAux sep cs [] else splitOnAux sep cs (c :: cur)

/-- Go `strings.Split` with a one-character separator. -/
def splitOn (sep : Char) (s : List Char) : List (List Char) := splitOnAux sep s []

/-- Worker of `fields`: `cur` is the current field, reversed. -/
def fieldsAux : List Char → List Char → List (List Char)
  | [], cur => if cur.isEmpty then [] else [cur.reverse]
  | c :: cs, cur =>
    if isSpace c then
      if cur.isEmpty then fieldsAux cs [] else cur.reverse :: fieldsAux cs []
    else fieldsAux cs (c :: cur)

/-- Go `strings.Fields`: the maximal runs of non-space characters. -/
def fields (s : List Char) : List (List Char) := fieldsAux s []

/-! ## Build constraints (Go package `go/build/constraint`) -/

/-- A build-constraint expression. -/
inductive Expr where
  | tag (name : String)
  | not (x : Expr)
  | and (x y : Expr)
  | or (x y : Expr)
  deriving DecidableEq

/-- Go `Expr.Eval`: the value of an expression when `ok` tells which tags are satisfied. -/
def Expr.eval (ok : String → Bool) : Expr → Bool
  | .tag name => ok name
  | .not x => !(x.eval ok)
  | .and x y => x.eval ok && y.eval ok
  | .or x y => x.eval ok || y.eval ok

/-- Characters allowed in a tag: letters and digits (of the ASCII range), underscore and dot. -/
def isTagChar (c : Char) : Bool :=
  c.isAlpha || c.isDigit || c == '_' || c == '.'

/-- Go `isValidTag`: a non-empty word of tag characters. -/
def isValidTag (word : List Char) : Bool :=
  !word.isEmpty && word.all isTagChar

/-- Tokens of the `//go:build` expression language. -/
inductive Tok where
  | lparen
  | rparen
  | bang
  | andand
  | oror
  | tag (name : String)
  deriving DecidableEq

/-- Go `exprParser.lex`, run over the whole expression text: `none` is a syntax error.  The
fuel bounds the number of tokens, each of which consumes at least one character. -/
def lexExpr : Nat → List Char → Option (List Tok)
  | 0, _ => none
  | fuel + 1, s =>
    match s.dropWhile (fun c => c == ' ' || c == '\t') with
    | [] => some []
    | '(' :: r => (lexExpr fuel r).map (Tok.lparen :: ·)
    | ')' :: r => (lexExpr fuel r).map (Tok.rparen :: ·)
    | '!' :: r => (lexExpr fuel r).map (Tok.bang :: ·)
    | '&' :: '&' :: r => (lexExpr fuel r).map (Tok.andand :: ·)
    | '|' :: '|' :: r => (lexExpr fuel r).map (Tok.oror :: ·)
    | c :: r =>
      if c == '&' || c == '|' then none
      else
        let word := (c :: r).takeWhile isTagChar
        if word.isEmpty then none
        else (lexExpr fuel ((c :: r).dropWhile isTagChar)).map (Tok.tag (String.mk word) :: ·)

mutual

/-- Go `exprParser.or`: conjunctions separated by `||`. -/
def parseOr : Nat → List Tok → Option (Expr × List Tok)
  | 0, _ => none
  | fuel + 1, ts =>
    match parseAnd fuel ts with
    | some (x, rest) => parseOrLoop fuel x rest
    | none => none

/-- The loop of `exprParser.or`, with the left operand parsed so far. -/
def parseOrLoop : Nat → Expr → List Tok → Option (Expr × List Tok)
  | 0, _, _ => none
  | fuel + 1, x, ts =>
    match ts with
    | Tok.oror :: rest =>
      match parseAnd fuel rest with
      | some (y, rest') => parseOrLoop fuel (Expr.or x y) rest'
      | none => none
    | _ => some (x, ts)

/-- Go `exprParser.and`: negations separated by `&&`. -/
def parseAnd : Nat → List Tok → Option (Expr × List Tok)
  | 0, _ => none
  | fuel + 1, ts =>
    match parseNot fuel ts with
    | some (x, rest) => parseAndLoop fuel x rest
    | none => none

/-- The loop of `exprParser.and`, with the left operand parsed so far. -/
def parseAndLoop : Nat → Expr → List Tok → Option (Expr × List Tok)
  | 0, _, _ => none
  | fuel + 1, x, ts =>
    match ts with
    | Tok.andand :: rest =>
      match parseNot fuel rest with
      | some (y, rest') => parseAndLoop fuel (Expr.and x y) rest'
      | none => none
    | _ => some (x, ts)

/-- Go `exprParser.not`: an atom, negated at most once. -/
def parseNot : Nat → List Tok → Option (Expr × List Tok)
  | 0, _ => none
  | fuel + 1, ts =>
    match ts with
    | Tok.bang :: Tok.bang :: _ => none
    | Tok.bang :: rest =>
      match parseAtom fuel rest with
      | some (x, rest') => some (Expr.not x, rest')
      | none => none
    | _ => parseAtom fuel ts

/-- Go `exprParser.atom`: a tag or a parenthesised expression. -/
def parseAtom : Nat → List Tok → Option (Expr × List Tok)
  | 0, _ => none
  | fuel + 1, ts =>
    match ts with
    | Tok.lparen :: rest =>
      match parseOr fuel rest with
      | some (x, Tok.rparen :: rest') => some (x, rest')
      | _ => none
    | Tok.tag name :: rest => some (Expr.tag name, rest)
    | _ => none

end

/-- Go `parseExpr`: the expression of a `//go:build` line; all of the text must be consumed.
The fuel bounds the depth of the calls, to which a token adds at most four. -/
def parseExpr (text : List Char) : Option Expr :=
  match lexExpr (text.length + 1) text with
  | none => none
  | some toks =>
    match parseOr (6 * toks.length + 6) toks with
    | some (x, []) => some x
    | _ => none

/-- Go `splitGoBuild` on one line without a newline: the expression text of a `//go:build`
line, `none` when the line is not one. -/
def splitGoBuild (line : List Char) : Option (List Char) :=
  if !hasPrefix line "//go:build".toList then none
  else
    let rest := (trimSpace line).drop "//go:build".length
    let trim := trimSpace rest
    if rest.length == trim.length && !rest.isEmpty then none else some trim

/-- Go `splitPlusBuild` on one line without a newline: the text after `// +build`, `none`
when the line is not a `+build` line. -/
def splitPlusBuild (line : List Char) : Option (List Char) :=
  if !hasPrefix line "//".toList then none
  else
    let l := trimSpace (line.drop 2)
    if !hasPrefix l "+build".toList then none
    else
      let rest := l.drop "+build".length
      let trim := trimSpace rest
      if rest.length == trim.length && !rest.isEmpty then none else some trim

/-- One literal of a `+build` clause: `tag`, `!tag`, or the unsatisfiable `ignore` for a
malformed literal. -/
def plusBuildLit (lit : List Char) : Expr :=
  if hasPrefix lit "!!".toList || lit == "!".toList then Expr.tag "ignore"
  else
    let neg := hasPrefix lit "!".toList
    let word := if neg then lit.drop 1 else lit
    let z := if isValidTag word then Expr.tag (String.mk word) else Expr.tag "ignore"
    if neg then Expr.not z else z

/-- Left fold of a binary connective over a non-empty list, `dflt` for the empty list. -/
def foldExpr (op : Expr → Expr → Expr) (dflt : Expr) : List Expr → Expr
  | [] => dflt
  | x :: xs => xs.foldl op x

/-- Go `parsePlusBuildExpr`: space-separated clauses are alternatives, the comma-separated
literals of a clause are all required. -/
def parsePlusBuildExpr (text : List Char) : Expr :=
  foldExpr Expr.or (Expr.tag "ignore")
    ((fields text).map fun clause =>
      foldExpr Expr.and (Expr.tag "ignore") ((splitOn ',' clause).map plusBuildLit))

/-- Go `constraint.Parse`: a `//go:build` line or a `// +build` line; `none` when the line is
neither or does not parse. -/
def parseConstraint (line : List Char) : Option Expr :=
  match splitGoBuild line with
  | some text => parseExpr text
  | none =>
    match splitPlusBuild line with
    | some text => some (parsePlusBuildExpr text)
    | none => none

/-! ## Reading the file header (Go package `go/build`) -/

/-- Go `isGoBuildComment`: the trimmed line is `//go:build` alone or followed by white space. -/
def isGoBuildComment (line : List Char) : Bool :=
  if !hasPrefix line "//go:build".toList then false
  else
    let rest := (trimSpace line).drop "//go:build".length
    rest.isEmpty || decide ((trimSpace rest).length < rest.length)

/-- The inner loop of `parseFileHeader` over what is left of one trimmed line: skip comments.
`some b` means the line held only comments and `b` tells whether a block comment is still
open; `none` means the line holds text that is not a comment.  Every round consumes at least
two characters, which the fuel covers. -/
def skipComments : Nat → Bool → List Char → Option Bool
  | 0, inSlashStar, _ => some inSlashStar
  | fuel + 1, inSlashStar, line =>
    if line.isEmpty then some inSlashStar
    else if inSlashStar then
      match cutAfter "*/".toList line with
      | some rest => skipComments fuel false (trimSpace rest)
      | none => some true
    else if hasPrefix line "//".toList then some false
    else if hasPrefix line "/*".toList then skipComments fuel true (trimSpace (line.drop 2))
    else none

/-- The state of the header scan. -/
structure HeaderState where
  /-- Number of lines up to and including the most recent blank line seen before the first
  line that is neither blank nor a line comment: the region where `+build` lines count. -/
  endLine : Nat
  /-- A line that is neither blank nor a line comment has been seen. -/
  ended : Bool
  /-- The scan is inside a block comment. -/
  inSlashStar : Bool
  /-- The `//go:build` line found so far. -/
  goBuild : Option (List Char)
  deriving DecidableEq

/-- Errors of the header scan and of constraint evaluation. -/
inductive BuildError where
  | multipleGoBuild
  | badGoBuild
  deriving DecidableEq

/-- The outer loop of Go `parseFileHeader`; `n` counts the lines already consumed.  The scan
stops at the first text that is not a comment. -/
def parseFileHeaderLoop : List (List Char) → Nat → HeaderState → Except BuildError HeaderState
  | [], _, st => .ok st
  | raw :: rest, n, st =>
    let line := trimSpace raw
    if line.isEmpty && !st.ended then
      parseFileHeaderLoop rest (n + 1) { st with endLine := n + 1 }
    else
      let ended := st.ended || !hasPrefix line "//".toList
      if !st.inSlashStar && isGoBuildComment line && st.goBuild.isSome then
        .error .multipleGoBuild
      else
        let goBuild := if !st.inSlashStar && isGoBuildComment line then some line else st.goBuild
        match skipComments (line.length + 1) st.inSlashStar line with
        | none => .ok { st with ended := ended, goBuild := goBuild }
        | some b =>
          parseFileHeaderLoop rest (n + 1)
            { st with ended := ended, inSlashStar := b, goBuild := goBuild }

/-- Go `parseFileHeader`: the header lines in which `+build` lines count, and the `//go:build`
line if there is one. -/
def parseFileHeader (content : List String) :
    Except BuildError (List (List Char) × Option (List Char)) :=
  let lines := content.map String.toList
  match parseFileHeaderLoop lines 0 ⟨0, false, false, none⟩ with
  | .error e => .error e
  | .ok st => .ok (lines.take st.endLine, st.goBuild)

/-- The tags that a build satisfies, as a list; `matchTag` looks a tag up. -/
def matchTag (tags : List String) (name : String) : Bool := tags.contains name

/-- The `default` branch of Go `shouldBuild`: every `+build` line of the header must hold. -/
def plusBuildOK (tags : List String) : List (List Char) → Bool
  | [] => true
  | raw :: rest =>
    let line := trimSpace raw
    if !hasPrefix line "//".toList || !containsSub line "+build".toList then plusBuildOK tags rest
    else
      if (splitPlusBuild line).isNone then plusBuildOK tags rest
      else
        match parseConstraint line with
        | none => plusBuildOK tags rest
        | some x => x.eval (matchTag tags) && plusBuildOK tags rest

/-- Go `Context.shouldBuild`: whether the content's build constraints admit the file.  A
`//go:build` line, when present, decides alone; otherwise the `+build` lines decide. -/
def shouldBuild (content : List String) (tags : List String) : Except BuildError Bool :=
  match parseFileHeader content with
  | .error e => .error e
  | .ok (_, some goBuild) =>
    match parseConstraint goBuild with
    | none => .error .badGoBuild
    | some x => .ok (x.eval (matchTag tags))
  | .ok (header, none) => .ok (plusBuildOK tags header)

/-- Go `Context.goodOSArchFile`: a file name of the form `name_GOOS`, `name_GOARCH` or
`name_GOOS_GOARCH` (before the extension, and before `_test`) constrains the file to that
system; `knownOS` and `knownArch` are the toolchain's tables of system names. -/
def goodOSArchFile (knownOS knownArch : List String) (tags : List String) (fileName : String) :
    Bool :=
  let base := fileName.toList.takeWhile (· != '.')
  match cutAfter ['_'] base with
  | none => true
  | some after =>
    let l := (splitOn '_' ('_' :: after)).map String.mk
    let l := if l.getLast? == some "test" then l.dropLast else l
    match l.reverse with
    | arch :: os :: _ =>
      if knownOS.contains os && knownArch.contains arch then
        matchTag tags arch && matchTag tags os
      else if knownOS.contains arch || knownArch.contains arch then matchTag tags arch
      else true
    | [last] =>
      if knownOS.contains last || knownArch.contains last then matchTag tags last else true
    | [] => true

/-- Go `Context.matchFile` for a `.go` file: the name must not open with `_` or `.`, must not
name another system, and the build constraints of the content must hold. -/
def matchFile (knownOS knownArch : List String) (tags : List String) (fileName : String)
    (content : List String) : Except BuildError Bool :=
  if hasPrefix fileName.toList ['_'] || hasPrefix fileName.toList ['.'] then .ok false
  else if !goodOSArchFile knownOS knownArch tags fileName then .ok false
  else shouldBuild content tags

/-- The decision of a toolchain that predates `//go:build` lines (before Go 1.17): such lines are
plain comments to it and only the `+build` lines of the header count. -/
def shouldBuildLegacy (content : List String) (tags : List String) : Except BuildError Bool :=
  match parseFileHeader content with
  | .error e => .error e
  | .ok (header, _) => .ok (plusBuildOK tags header)

/-! ## Lexical structure of a Go source file

The scanner covers comments, identifiers and keywords, string, rune and number literals,
punctuation, and the automatic insertion of semicolons.  Operators are delivered one character
at a time, except `++` and `--`, which matter to semicolon insertion; escapes inside literals
are kept as written. -/

/-- Tokens of Go source text. -/
inductive Token where
  | ident (name : String)
  | keyword (name : String)
  | str (text : String)
  | lit (text : String)
  | op (text : String)
  | semicolon
  deriving DecidableEq

/-- The keywords of Go. -/
def keywords : List String :=
  [ "break", "case", "chan", "const", "continue", "default", "defer", "else", "fallthrough",
    "for", "func", "go", "goto", "if", "import", "interface", "map", "package", "range",
    "return", "select", "struct", "switch", "type", "var" ]

/-- First character of an identifier. -/
def isLetter (c : Char) : Bool := c.isAlpha || c == '_'

/-- An identifier or a keyword, and whether a newline after it ends the statement. -/
def wordToken (w : String) : Token × Bool :=
  if keywords.contains w then
    (Token.keyword w, w == "break" || w == "continue" || w == "fallthrough" || w == "return")
  else (Token.ident w, true)

/-- The body of a quoted literal up to the closing `quote`, and the text after it; a backslash
escapes the next character when `esc` is set; `none` when the literal is not terminated on
its line (or, for a raw string, in the file). -/
def scanQuoted (quote : Char) (esc : Bool) : List Char → List Char → Option (List Char × List Char)
  | [], _ => none
  | c :: r, acc =>
    if c == quote then some (acc.reverse, r)
    else if esc && c == '\n' then none
    else if esc && c == '\\' then
      match r with
      | [] => none
      | d :: r' => scanQuoted quote esc r' (d :: c :: acc)
    else scanQuoted quote esc r (c :: acc)

/-- The punctuation characters of Go. -/
def isPunct (c : Char) : Bool :=
  "+-*/%&|^<>=!()[]\x7b\x7d,.:~".toList.contains c

/-- The Go scanner: `insertSemi` tells whether a newline at this point becomes a semicolon.
Every round consumes at least one character, which the fuel covers. -/
def scanLoop : Nat → Bool → List Char → Option (List Token)
  | 0, _, _ => none
  | fuel + 1, insertSemi, s =>
    match s with
    | [] => some (if insertSemi then [Token.semicolon] else [])
    | '\n' :: r =>
      if insertSemi then (scanLoop fuel false r).map (Token.semicolon :: ·)
      else scanLoop fuel false r
    | '/' :: '/' :: r => scanLoop fuel insertSemi (r.dropWhile (· != '\n'))
    | '/' :: '*' :: r =>
      match cutAfter "*/".toList r with
      | none => none
      | some rest =>
        if insertSemi && (r.take (r.length - rest.length)).contains '\n' then
          (scanLoop fuel false rest).map (Token.semicolon :: ·)
        else scanLoop fuel insertSemi rest
    | ';' :: r => (scanLoop fuel false r).map (Token.semicolon :: ·)
    | '"' :: r =>
      match scanQuoted '"' true r [] with
      | none => none
      | some (body, rest) => (scanLoop fuel true rest).map (Token.str (String.mk body) :: ·)
    | '\'' :: r =>
      match scanQuoted '\'' true r [] with
      | none => none
      | some (body, rest) => (scanLoop fuel true rest).map (Token.lit (String.mk body) :: ·)
    | '+' :: '+' :: r => (scanLoop fuel true r).map (Token.op "++" :: ·)
    | '-' :: '-' :: r => (scanLoop fuel true r).map (Token.op "--" :: ·)
    | c :: r =>
      if c == ' ' || c == '\t' || c == '\r' then scanLoop fuel insertSemi r
      else if c == Char.ofNat 96 then
        match scanQuoted c false r [] with
        | none => none
        | some (body, rest) => (scanLoop fuel true rest).map (Token.str (String.mk body) :: ·)
      else if isLetter c then
        let isPart := fun d => isLetter d || d.isDigit
        let tk := wordToken (String.mk ((c :: r).takeWhile isPart))
        (scanLoop fuel tk.2 ((c :: r).dropWhile isPart)).map (tk.1 :: ·)
      else if c.isDigit then
        let isPart := fun d => isLetter d || d.isDigit || d == '.'
        (scanLoop fuel true ((c :: r).dropWhile isPart)).map
          (Token.lit (String.mk ((c :: r).takeWhile isPart)) :: ·)
      else if isPunct c then
        (scanLoop fuel (c == ')' || c == ']' || c == '\x7d') r).map (Token.op (String.mk [c]) :: ·)
      else none

/-- The content of a file as one text: its lines joined by newlines. -/
def fileText (content : List String) : List Char :=
  List.intercalate ['\n'] (content.map String.toList)

/-- The tokens of a file, `none` on a lexical error. -/
def scan (content : List String) : Option (List Token) :=
  scanLoop ((fileText content).length + 1) false (fileText content)

/-! ## Top-level grammar of a Go source file

`SourceFile = PackageClause ";" { ImportDecl ";" } { TopLevelDecl ";" }`.  Import declarations
are parsed in full; of any other top-level declaration the parser records the kind and skips
to the semicolon that ends it. -/

/-- One import: the name given to the package (`_` for a blank import, `.` for a dot import,
`none` when the import is unnamed) and the import path. -/
structure ImportSpec where
  name : Option String
  path : String
  deriving DecidableEq

/-- The kinds of top-level declaration other than imports. -/
inductive DeclKind where
  | funcDecl
  | varDecl
  | constDecl
  | typeDecl
  deriving DecidableEq

/-- What a source file declares. -/
structure GoFile where
  pkgName : String
  imports : List ImportSpec
  decls : List DeclKind
  deriving DecidableEq

/-- An import path is a string literal without escapes. -/
def importPath (text : String) : Option String :=
  if text.toList.contains '\\' then none else some text

/-- `ImportSpec = [ "." | PackageName ] ImportPath`, and the tokens after it. -/
def parseImportSpec : List Token → Option (ImportSpec × List Token)
  | Token.str p :: rest => (importPath p).map fun q => (⟨none, q⟩, rest)
  | Token.ident n :: Token.str p :: rest => (importPath p).map fun q => (⟨some n, q⟩, rest)
  | Token.op "." :: Token.str p :: rest => (importPath p).map fun q => (⟨some ".", q⟩, rest)
  | _ => none

/-- The specs of a parenthesised import group, after the opening parenthesis, up to and
including the closing one; each spec is followed by a semicolon, which may be left out before
the closing parenthesis. -/
def parseImportGroup : Nat → List Token → Option (List ImportSpec × List Token)
  | 0, _ => none
  | fuel + 1, ts =>
    match ts with
    | Token.op ")" :: rest => some ([], rest)
    | _ =>
      match parseImportSpec ts with
      | some (spec, Token.semicolon :: rest) =>
        (parseImportGroup fuel rest).map fun (specs, rest') => (spec :: specs, rest')
      | some (spec, Token.op ")" :: rest) => some ([spec], rest)
      | _ => none

/-- The import declarations at the head of the token list, each followed by a semicolon, and
the tokens after them. -/
def parseImports : Nat → List Token → Option (List ImportSpec × List Token)
  | 0, _ => none
  | fuel + 1, ts =>
    match ts with
    | Token.keyword "import" :: Token.op "(" :: rest =>
      match parseImportGroup rest.length.succ rest with
      | some (specs, Token.semicolon :: rest') =>
        (parseImports fuel rest').map fun (more, rest'') => (specs ++ more, rest'')
      | _ => none
    | Token.keyword "import" :: rest =>
      match parseImportSpec rest with
      | some (spec, Token.semicolon :: rest') =>
        (parseImports fuel rest').map fun (more, rest'') => (spec :: more, rest'')
      | _ => none
    | _ => some ([], ts)

/-- Skip to the end of a declaration: past the first semicolon outside all brackets; `depth`
counts the open brackets. -/
def skipDecl : Nat → List Token → Option (List Token)
  | _, [] => none
  | depth, Token.semicolon :: rest => if depth == 0 then some rest else skipDecl depth rest
  | depth, Token.op t :: rest =>
    if t == "(" || t == "[" || t == "\x7b" then skipDecl (depth + 1) rest
    else if t == ")" || t == "]" || t == "\x7d" then
      if depth == 0 then none else skipDecl (depth - 1) rest
    else skipDecl depth rest
  | depth, _ :: rest => skipDecl depth rest

/-- The kind of declaration a keyword opens. -/
def declKind (kw : String) : Option DeclKind :=
  if kw == "func" then some .funcDecl
  else if kw == "var" then some .varDecl
  else if kw == "const" then some .constDecl
  else if kw == "type" then some .typeDecl
  else none

/-- The top-level declarations after the imports, to the end of the file. -/
def parseDecls : Nat → List Token → Option (List DeclKind)
  | 0, _ => none
  | fuel + 1, ts =>
    match ts with
    | [] => some []
    | Token.keyword kw :: rest =>
      match declKind kw, skipDecl 0 rest with
      | some k, some rest' => (parseDecls fuel rest').map (k :: ·)
      | _, _ => none
    | _ => none

/-- Parse the tokens of a source file. -/
def parseTokens : List Token → Option GoFile
  | Token.keyword "package" :: Token.ident name :: Token.semicolon :: rest =>
    match parseImports rest.length.succ rest with
    | none => none
    | some (imports, rest') =>
      (parseDecls rest'.length.succ rest').map fun decls => ⟨name, imports, decls⟩
  | _ => none

/-- Scan and parse a source file; `none` when the text is not a well-formed Go file of the
part of the language covered. -/
def parseFile (content : List String) : Option GoFile :=
  (scan content).bind parseTokens

/-! ## Layout of the header, line by line -/

/-- A line of white space only. -/
def isBlank (l : String) : Bool := (trimSpace l.toList).isEmpty

/-- A line that holds a `//` comment and nothing else. -/
def isLineComment (l : String) : Bool := hasPrefix (trimSpace l.toList) "//".toList

/-- A `//go:build` constraint line. -/
def isGoBuildLine (l : String) : Bool := isGoBuildComment (trimSpace l.toList)

/-- A `// +build` constraint line. -/
def isPlusBuildLine (l : String) : Bool := (splitPlusBuild (trimSpace l.toList)).isSome

/-- A line that opens with the keyword `package`. -/
def isPackageClause (l : String) : Bool := (fields l.toList).head? == some "package".toList

/-- The numbers, counted from 1, of the lines that satisfy `p`. -/
def lineNumbers (p : String → Bool) (content : List String) : List Nat :=
  ((content.enumFrom 1).filter fun nl => p nl.2).map Prod.fst

/-- The expressions of the `//go:build` lines of a file (`none` for a line that does not
parse). -/
def goBuildExprs (content : List String) : List (Option Expr) :=
  (content.filter isGoBuildLine).map fun l => parseConstraint (trimSpace l.toList)

/-- The expressions of the `// +build` lines of a file. -/
def plusBuildExprs (content : List String) : List (Option Expr) :=
  (content.filter isPlusBuildLine).map fun l => parseConstraint (trimSpace l.toList)

/-! ## The module named by the file comment -/

/-- The words of the comment lines of a file that are not constraint lines. -/
def commentWords (content : List String) : List (List Char) :=
  (content.filter fun l => isLineComment l && !isGoBuildLine l && !isPlusBuildLine l).flatMap
    fun l => fields ((trimSpace l.toList).drop 2)

/-- A version word: `v` and a digit, then anything. -/
def isVersion : List Char → Bool
  | 'v' :: d :: _ => d.isDigit
  | _ => false

/-- The pairs of a word and the version word that follows it. -/
def versionMentions : List (List Char) → List (String × String)
  | m :: v :: rest =>
    if isVersion v then (String.mk m, String.mk v) :: versionMentions (v :: rest)
    else versionMentions (v :: rest)
  | _ => []

/-- The modules, with their versions, that the comments of a file say it pins. -/
def pinnedModules (content : List String) : List (String × String) :=
  versionMentions (commentWords content)

/-- The segments of a slash-separated path. -/
def pathSegments (p : String) : List (List Char) := splitOn '/' p.toList

/-- Package path `pkg` lies in module `m`: the segments of `m` open those of `pkg`. -/
def inModule (m pkg : String) : Bool := (pathSegments m).isPrefixOf (pathSegments pkg)

/-! ## Which packages a build links -/

/-- The file is selected for compilation under the tags. -/
def compiled (tags : List String) (content : List String) : Bool :=
  match shouldBuild content tags with
  | .ok b => b
  | .error _ => false

/-- What a build takes from one source file: whether the file is selected under the tags of
the build, and the paths of the packages it imports. -/
structure BuildFile where
  selected : Bool
  imports : List String
  deriving DecidableEq

/-- Read a source file for a build under the tags; `none` when its constraints or its text do
not parse. -/
def readFile (tags : List String) (content : List String) : Option BuildFile :=
  match shouldBuild content tags, parseFile content with
  | .ok b, some f => some ⟨b, f.imports.map ImportSpec.path⟩
  | _, _ => none

/-- The packages that the selected files of a build import themselves. -/
def roots (files : List BuildFile) : List String :=
  (files.filter BuildFile.selected).flatMap BuildFile.imports

/-- The packages reached from `pkgs` in at most `depth` steps along the import graph, which
gives for a package the packages it imports. -/
def reach (graph : String → List String) : Nat → List String → List String
  | 0, pkgs => pkgs
  | depth + 1, pkgs => pkgs ++ reach graph depth (pkgs.flatMap graph)

/-- A package is linked into a build when the selected files reach it along the import graph;
`depth` bounds the length of the chain of imports. -/
def linked (graph : String → List String) (depth : Nat) (files : List BuildFile)
    (pkg : String) : Bool :=
  (reach graph depth (roots files)).contains pkg

/-- The package that `deps.go` imports. -/
def protoimpl : String := "google.golang.org/protobuf/runtime/protoimpl"

/-- A file of the kind the comment of `deps.go` speaks of, code that uses the library: it
imports the package and refers to it, under no build constraint. -/
def usesProtoimpl : List String :=
  [ "package api",
    "",
    "import \"google.golang.org/protobuf/runtime/protoimpl\"",
    "",
    "var _ = protoimpl.X" ]

/-! ## Evaluation of the embedding on `deps.go` -/

theorem parseFileHeader_depsGo :
    parseFileHeader depsGo =
      .ok ((depsGo.take 9).map String.toList, some "//go:build tools".toList) := by
  rfl

theorem shouldBuild_depsGo (tags : List String) :
    shouldBuild depsGo tags = .ok (tags.contains "tools") := by
  rfl

theorem matchFile_depsGo (knownOS knownArch tags : List String) :
    matchFile knownOS knownArch tags depsGoName depsGo = .ok (tags.contains "tools") := by
  rfl

theorem shouldBuildLegacy_depsGo (tags : List String) :
    shouldBuildLegacy depsGo tags = .ok (tags.contains "tools") := by
  have h : shouldBuildLegacy depsGo tags = .ok (tags.contains "tools" && true) := rfl
  rw [h, Bool.and_true]

set_option maxRecDepth 100000 in
theorem scan_depsGo :
    scan depsGo = some
      [ Token.keyword "package", Token.ident "api", Token.semicolon,
        Token.keyword "import", Token.op "(",
        Token.ident "_", Token.str "google.golang.org/protobuf/runtime/protoimpl",
        Token.semicolon, Token.op ")", Token.semicolon ] := by
  rfl

set_option maxRecDepth 100000 in
theorem parseFile_depsGo :
    parseFile depsGo =
      some ⟨"api", [⟨some "_", "google.golang.org/protobuf/runtime/protoimpl"⟩], []⟩ := by
  rfl

theorem readFile_depsGo (tags : List String) :
    readFile tags depsGo = some ⟨tags.contains "tools", [protoimpl]⟩ := by
  simp [readFile, shouldBuild_depsGo, parseFile_depsGo, protoimpl]

theorem roots_cons_of_not_selected (u : BuildFile) (others : List BuildFile)
    (h : u.selected = false) : roots (u :: others) = roots others := by
  simp [roots, h]

theorem compiled_depsGo (tags : List String) : compiled tags depsGo = tags.contains "tools" := by
  simp [compiled, shouldBuild_depsGo]

/-! ## The claims -/

/-- C1: for every set of build tags (given as the list of the tags that hold), the
constraints of `deps.go` select the file for compilation exactly when the set contains
`tools`, and the decision is never an error; the file name `deps.go` adds no condition,
whatever the toolchain's tables of system names; under the empty tag set the file is
excluded. -/
theorem C1_selected_iff_tools :
    (∀ tags : List String, shouldBuild depsGo tags = .ok true ↔ "tools" ∈ tags) ∧
    (∀ tags : List String, shouldBuild depsGo tags = .ok false ↔ "tools" ∉ tags) ∧
    (∀ knownOS knownArch tags : List String,
      matchFile knownOS knownArch tags depsGoName depsGo = shouldBuild depsGo tags) ∧
    shouldBuild depsGo [] = .ok false ∧
    compiled [] depsGo = false := by
  refine ⟨fun tags => ?_, fun tags => ?_, fun knownOS knownArch tags => ?_, rfl, rfl⟩
  · rw [shouldBuild_depsGo]
    simp
  · rw [shouldBuild_depsGo]
    simp
  · rw [matchFile_depsGo, shouldBuild_depsGo]

/-- C3: `deps.go` parses as a file of package `api` that declares no function, variable,
constant or type, whose only keywords are `package` and `import`, and all of whose imports
(there is one) are blank imports, named `_`. -/
theorem C3_no_declarations_blank_imports :
    ∃ toks f, scan depsGo = some toks ∧ parseFile depsGo = some f ∧
      f.pkgName = "api" ∧
      f.decls = [] ∧
      (∀ kw, Token.keyword kw ∈ toks → kw = "package" ∨ kw = "import") ∧
      f.imports.length = 1 ∧
      ∀ imp ∈ f.imports, imp.name = some "_" := by
  refine ⟨_, _, scan_depsGo, parseFile_depsGo, rfl, rfl, ?_, rfl, ?_⟩
  · intro kw h
    simp at h
    exact h
  · intro imp h
    simp at h
    rw [h]

/-- C4, as stated, fails: in the build without any tag of `deps.go` together with a file that
uses the library, `deps.go` is not selected, the other file is, and the package that
`deps.go` imports is linked. -/
theorem C4_linked_in_production_build :
    "tools" ∉ ([] : List String) ∧
    readFile [] depsGo = some ⟨false, [protoimpl]⟩ ∧
    readFile [] usesProtoimpl = some ⟨true, [protoimpl]⟩ ∧
    linked (fun _ => []) 0 [⟨false, [protoimpl]⟩, ⟨true, [protoimpl]⟩] protoimpl = true := by
  refine ⟨by decide, readFile_depsGo [], ?_, by decide⟩
  set_option maxRecDepth 100000 in
  rfl

/-- C4, amended: in every build whose tags do not contain `tools`, `deps.go` is read without
error, is not selected, and adds nothing to what the build links: whatever the other files of
the build and the import graph, a package is linked in the build with `deps.go` exactly when it
is linked in the build of the other files alone; this holds of the package that `deps.go`
imports in particular. -/
theorem C4_deps_adds_nothing_without_tools (tags : List String) (hprod : "tools" ∉ tags) :
    ∃ u, readFile tags depsGo = some u ∧ u.selected = false ∧ u.imports = [protoimpl] ∧
      (∀ (others : List BuildFile) (graph : String → List String) (depth : Nat) (pkg : String),
        linked graph depth (u :: others) pkg = linked graph depth others pkg) ∧
      ∀ (others : List BuildFile) (graph : String → List String) (depth : Nat),
        linked graph depth (u :: others) protoimpl = linked graph depth others protoimpl := by
  have hsel : tags.contains "tools" = false := by simpa using hprod
  refine ⟨⟨tags.contains "tools", [protoimpl]⟩, readFile_depsGo tags, hsel, rfl, ?_, ?_⟩
  · intro others graph depth pkg
    simp only [linked]
    rw [roots_cons_of_not_selected _ _ hsel]
  · intro others graph depth
    simp only [linked]
    rw [roots_cons_of_not_selected _ _ hsel]

/-- Witness of C4, amended: the builds with the tag `linux`. -/
theorem C4_deps_adds_nothing_without_tools_witness :
    ∃ u, readFile ["linux"] depsGo = some u ∧ u.selected = false ∧ u.imports = [protoimpl] ∧
      (∀ (others : List BuildFile) (graph : String → List String) (depth : Nat) (pkg : String),
        linked graph depth (u :: others) pkg = linked graph depth others pkg) ∧
      ∀ (others : List BuildFile) (graph : String → List String) (depth : Nat),
        linked graph depth (u :: others) protoimpl = linked graph depth others protoimpl :=
  C4_deps_adds_nothing_without_tools ["linux"] (by decide)

/-- C6: the comment of `deps.go` names one module, `google.golang.org/protobuf` (at
`v1.36.10`); the file has the single import path
`google.golang.org/protobuf/runtime/protoimpl`, and every import path of the file has the
path of that module as a prefix of its path segments. -/
theorem C6_imports_inside_pinned_module :
    ∃ f, parseFile depsGo = some f ∧
      pinnedModules depsGo = [("google.golang.org/protobuf", "v1.36.10")] ∧
      f.imports.map ImportSpec.path = ["google.golang.org/protobuf/runtime/protoimpl"] ∧
      ∀ imp ∈ f.imports, ∀ mv ∈ pinnedModules depsGo, inModule mv.1 imp.path = true := by
  have hp : pinnedModules depsGo = [("google.golang.org/protobuf", "v1.36.10")] := by decide
  refine ⟨_, parseFile_depsGo, hp, rfl, ?_⟩
  intro imp himp mv hmv
  rw [hp] at hmv
  simp at himp hmv
  subst himp hmv
  decide

/-- C7: the `//go:build` line and the `// +build` line of `deps.go` each parse, to expressions
that have the same value under every assignment of tags; and for every set of build tags a
toolchain that reads the `//go:build` line and one that reads only `+build` lines come to the
same decision about the file. -/
theorem C7_constraint_lines_agree :
    ∃ x y, goBuildExprs depsGo = [some x] ∧ plusBuildExprs depsGo = [some y] ∧
      (∀ ok : String → Bool, x.eval ok = y.eval ok) ∧
      ∀ tags : List String, shouldBuild depsGo tags = shouldBuildLegacy depsGo tags := by
  refine ⟨Expr.tag "tools", Expr.tag "tools", by decide, by decide, fun _ => rfl, fun tags => ?_⟩
  rw [shouldBuild_depsGo, shouldBuildLegacy_depsGo]

/-- C8: in `deps.go` the `//go:build` line is line 7, the `// +build` line is line 8 and the
package clause, `package api`, is line 10; all the lines before line 8 are line comments or
blank; line 9, between the constraints and the package clause, is blank; and the header scan
of Go accepts both lines: it returns the `//go:build` line, and the `+build` line lies in the
header region it delimits, the first nine lines. -/
theorem C8_constraints_well_placed :
    lineNumbers isGoBuildLine depsGo = [7] ∧
    lineNumbers isPlusBuildLine depsGo = [8] ∧
    lineNumbers isPackageClause depsGo = [10] ∧
    depsGo.get? 9 = some "package api" ∧
    (∀ l ∈ depsGo.take 7, isLineComment l = true ∨ isBlank l = true) ∧
    9 ∈ lineNumbers isBlank depsGo ∧
    parseFileHeader depsGo =
      .ok ((depsGo.take 9).map String.toList, some "//go:build tools".toList) ∧
    (depsGo.take 9).filter isPlusBuildLine = ["// +build tools"] := by
  refine ⟨by decide, by decide, by decide, rfl, by decide, by decide, parseFileHeader_depsGo,
    by decide⟩

end Api
